import Mathlib

/-!
# Verification of the GDP-tool extraction-and-matching pipeline

Shallow embedding of the core pipeline of `src/app.py` (a Streamlit app that
matches arriving flights against a Ground Delay Program advisory's scope):

* `extract_dep_scope` — scope-code recognition over advisory text
  (regex `\b([CZ][A-Z0-9]{2,3})\b` plus a length/denylist filter);
* `find_column_index` — keyword-based column resolution over a header row;
* `processRow` / `pageRows` / `docRows` — the row-to-scope matching and delay
  aggregation loop of `process_gdp`;
* `severity` — the mean-delay classifier.

Modelling conventions: PDF pages are modelled by the data the external
libraries hand to the code — `extract_table` as an `Option TableGrid`
(`none` = extraction failed / no table), cells as `Option String` (pdfplumber
yields `None` cells). Character classes model the ASCII behaviour of Python's
`re`/`str` operations (all strings relevant to the pipeline are ASCII).
Python `float` means are modelled by `ℚ`.
-/

namespace GDP

/-- A word character for Python's `\b` boundary / `\w` class (ASCII case):
letters, digits, underscore. -/
def wordChar (c : Char) : Bool := c.isAlphanum || c = '_'

/-- Auxiliary for `runs`: accumulate the current (reversed) run. -/
def runsAux (keep : Char → Bool) : List Char → List Char → List (List Char)
  | [], acc => if acc.isEmpty then [] else [acc.reverse]
  | c :: cs, acc =>
    if keep c then runsAux keep cs (c :: acc)
    else if acc.isEmpty then runsAux keep cs [] else acc.reverse :: runsAux keep cs []

/-- The maximal runs of characters satisfying `keep`, in order. -/
def runs (keep : Char → Bool) (l : List Char) : List (List Char) := runsAux keep l []

/-- The maximal word-character runs of a text: the tokens delimited by `\b`. -/
def tokenize (l : List Char) : List (List Char) := runs wordChar l

/-- The character class `[A-Z0-9]` of the scope regex (by code point). -/
def codeChar (c : Char) : Bool :=
  (65 ≤ c.toNat && c.toNat ≤ 90) || (48 ≤ c.toNat && c.toNat ≤ 57)

/-- A whole word-token is a match of `\b([CZ][A-Z0-9]{2,3})\b` exactly when it
starts with `C` or `Z`, continues with 2–3 characters of `[A-Z0-9]`, and ends
there (the trailing `\b` forces the match to exhaust the token, the leading one
forces it to start the token). -/
def scopeTokenMatches : List Char → Bool
  | [] => false
  | c :: rest =>
    (c = 'C' || c = 'Z') && (rest.length = 2 || rest.length = 3) && rest.all codeChar

/-- Python `str.upper()` (ASCII model). -/
def upperStr (s : String) : String := ⟨s.data.map Char.toUpper⟩

/-- Python `str.strip()` (ASCII whitespace model). -/
def pyStrip (s : String) : String :=
  ⟨((s.data.dropWhile Char.isWhitespace).reverse.dropWhile Char.isWhitespace).reverse⟩

/-- The false-positive denylist of `extract_dep_scope`. -/
def denylist : List String := ["CENT", "CYZ", "CZ"]

/-- The codes `extract_dep_scope` admits into the scope set from one page's
text: regex matches passing `len(m) >= 3 and m.upper() not in denylist`,
normalised with `.upper()`. -/
def pageScopeCodes (text : String) : List String :=
  ((tokenize text.data).filter scopeTokenMatches).filterMap (fun m =>
    if 3 ≤ m.length ∧ upperStr ⟨m⟩ ∉ denylist then some (upperStr ⟨m⟩) else none)

/-- Lexicographic comparison of character lists by code point — Python's
string ordering. -/
def strLe : List Char → List Char → Bool
  | [], _ => true
  | _ :: _, [] => false
  | a :: s, b :: t => a.toNat < b.toNat || (a.toNat = b.toNat && strLe s t)

/-- Python's `<=` on strings. -/
def codeLe (s t : String) : Prop := strLe s.data t.data = true

instance : DecidableRel codeLe := fun _ _ => instDecidableEqBool _ _

/-- The function `extract_dep_scope`: union of all pages' admitted codes, returned as
`sorted(list(scope))` — the sorted duplicate-free listing of the set. -/
def extract_dep_scope (pages : List String) : List String :=
  List.insertionSort codeLe ((pages.map pageScopeCodes).flatten.dedup)

/-- The four ordinal impact ratings. -/
inductive Rating where
  | NIL
  | LOW
  | MODERATE
  | HIGH
deriving DecidableEq, Repr

/-- The severity classifier of `process_gdp`:
`<11 → NIL`, `<15 → LOW`, `<45 → MODERATE`, else `HIGH`. -/
def severity (avg : ℚ) : Rating :=
  if avg < 11 then .NIL
  else if avg < 15 then .LOW
  else if avg < 45 then .MODERATE
  else .HIGH

/-- A table cell as pdfplumber yields it: a string or `None`. -/
abbrev Cell := Option String

/-- One table row. -/
abbrev Row := List Cell

/-- The grid `page.extract_table(...)` returns on success. -/
abbrev TableGrid := List Row

/-- One arrivals page, modelled by what the external extraction capabilities
yield on it: `table` is the result of structured extraction (`None` on
failure), `rawText` the plain text an OCR/text-layer pass would give. The
pipeline in `src/app.py` only consumes `table`. -/
structure Page where
  table : Option TableGrid
  rawText : String

/-- Python's `str(cell)`: `None` prints as `"None"`. -/
def cellStr : Cell → String
  | none => "None"
  | some s => s

/-- Header-cell normalisation `str(h).upper().replace(" ", "")`. -/
def headerNorm (c : Cell) : String :=
  ⟨((upperStr (cellStr c)).data.filter (fun ch => ch ≠ ' '))⟩

/-- Python's substring test `needle in hay`. -/
def containsSub (needle hay : List Char) : Bool :=
  (List.range (hay.length + 1)).any (fun i => needle.isPrefixOf (hay.drop i))

/-- Does some keyword occur in the normalised header cell? -/
def headerMatch (keywords : List String) (c : Cell) : Bool :=
  keywords.any (fun k => containsSub k.data (headerNorm c).data)

/-- Auxiliary loop of `find_column_index`, carrying the current index. -/
def findColAux (keywords : List String) : List Cell → Nat → Option Nat
  | [], _ => none
  | h :: rest, idx =>
    if headerMatch keywords h then some idx else findColAux keywords rest (idx + 1)

/-- The function `find_column_index`: index of the first header cell whose normalised form
contains one of the keywords, else `None`. -/
def find_column_index (headers : List Cell) (keywords : List String) : Option Nat :=
  findColAux keywords headers 0

/-- Keyword lists of `process_gdp` for the three semantic roles. -/
def acidKeywords : List String := ["ACID", "AIRCRAFT", "CALLSIGN"]

/-- Keywords for the departure-center column. -/
def dcentrKeywords : List String := ["DCENTR", "DEP", "ORIGIN"]

/-- Keywords for the delay column. -/
def delayKeywords : List String := ["PGM", "DELAY", "PROGRAMDELAY", "MIN"]

/-- Value of a non-empty decimal digit string, as Python's `int`. -/
def digitsToNat (l : List Char) : Nat :=
  l.foldl (fun n c => 10 * n + (c.toNat - 48)) 0

/-- Delay parsing of `process_gdp`: `0` unless the cell is truthy; otherwise
strip all non-digits (`re.sub(r"[^0-9]", "", ...)`) and parse, keeping `0`
when nothing remains. -/
def parseDelay : Cell → Nat
  | none => 0
  | some s =>
    if s = "" then 0
    else
      let cleanD := s.data.filter Char.isDigit
      if cleanD = [] then 0 else digitsToNat cleanD

/-- One matched row: the raw `acid` and `dcentr` cells and the parsed delay. -/
structure ImpactedRow where
  acid : Cell
  dcentr : Cell
  delay : Nat
deriving DecidableEq, Repr

/-- The match-and-emit step on one row's cells (`if dcentr: ...` in
`process_gdp`): skip falsy departure cells, uppercase and strip, match if any
scope code is a substring, and emit one `ImpactedRow` on match. -/
def rowMatch (scopeSet : List String) (acid dcentr delayStr : Cell) : List ImpactedRow :=
  match dcentr with
  | none => []
  | some dc =>
    if dc = "" then []
    else
      let dcClean := pyStrip (upperStr dc)
      if scopeSet.any (fun s => containsSub s.data dcClean.data) then
        [{ acid := acid, dcentr := some dc, delay := parseDelay delayStr }]
      else []

/-- The per-row step of `process_gdp`'s table loop: skip rows that are empty
or shorter than the largest resolved column index (`idx_delay or 0` gives `0`
when the delay column is absent), then read the three cells and match. -/
def processRow (scopeSet : List String) (idxA idxD : Nat) (idxDelay : Option Nat)
    (row : Row) : List ImpactedRow :=
  if row = [] ∨ row.length ≤ max idxA (max idxD (idxDelay.getD 0)) then []
  else
    let acid := row.getD idxA none
    let dcentr := row.getD idxD none
    let delayStr : Cell :=
      match idxDelay with
      | some d => row.getD d none
      | none => some "0"
    rowMatch scopeSet acid dcentr delayStr

/-- The per-row step with checked cell access: Python's `row[i]` raises
`IndexError` out of bounds, modelled by `Except`. -/
def processRowE (scopeSet : List String) (idxA idxD : Nat) (idxDelay : Option Nat)
    (row : Row) : Except String (List ImpactedRow) :=
  if row = [] ∨ row.length ≤ max idxA (max idxD (idxDelay.getD 0)) then .ok []
  else
    match row.get? idxA with
    | none => .error "IndexError"
    | some acid =>
      match row.get? idxD with
      | none => .error "IndexError"
      | some dcentr =>
        match idxDelay with
        | some d =>
          match row.get? d with
          | none => .error "IndexError"
          | some delayStr => .ok (rowMatch scopeSet acid dcentr delayStr)
        | none => .ok (rowMatch scopeSet acid dcentr (some "0"))

/-- The rows one page contributes in `process_gdp`: nothing when table
extraction failed (`if not table: continue`) or when the identifier or
departure-center column cannot be resolved; otherwise the concatenated
per-row results over the data rows `table[1:]`. -/
def pageRows (scopeSet : List String) (p : Page) : List ImpactedRow :=
  match p.table with
  | none => []
  | some [] => []
  | some (headers :: rows) =>
    let idxA := find_column_index headers acidKeywords
    let idxD := find_column_index headers dcentrKeywords
    let idxDelay := find_column_index headers delayKeywords
    match idxA, idxD with
    | some a, some d => (rows.map (processRow scopeSet a d idxDelay)).flatten
    | _, _ => []

/-- All impacted rows of the arrivals document, across pages. -/
def docRows (scopeSet : List String) (pages : List Page) : List ImpactedRow :=
  (pages.map (pageRows scopeSet)).flatten

/-- The accumulator `total_delay`: sum of matched rows' delays. -/
def totalDelay (rows : List ImpactedRow) : Nat :=
  (rows.map ImpactedRow.delay).sum

/-- The mean `avg = total_delay / count if count > 0 else 0`. -/
def meanDelay (rows : List ImpactedRow) : ℚ :=
  if 0 < rows.length then (totalDelay rows : ℚ) / (rows.length : ℚ) else 0

/-- Is a page skipped by `if not table: continue` (`None` or an empty grid)? -/
def pageSkipped (p : Page) : Bool :=
  match p.table with
  | none => true
  | some [] => true
  | some (_ :: _) => false

/-- The page indexes for which `process_gdp` logs
`"Page {i+1}: Pas de tableau détecté."` and moves on. -/
def skippedPages (pages : List Page) : List Nat :=
  (List.range pages.length).filter (fun i =>
    match pages[i]? with
    | some p => pageSkipped p
    | none => false)

/-- Python `round(q, 1)` modelled on `ℚ`: scale by 10 and round half to even. -/
def pyRound1 (q : ℚ) : ℚ :=
  let n : ℤ := ⌊10 * q⌋
  let f : ℚ := 10 * q - n
  let r : ℤ :=
    if f < 1 / 2 then n
    else if 1 / 2 < f then n + 1
    else if n % 2 = 0 then n else n + 1
  (r : ℚ) / 10

/-- The aggregate outcome of one `process_gdp` run (the fields of its result
dict that the pipeline computes; annotation bytes, logs and debug samples are
presentation data and omitted). -/
structure AnalysisResult where
  scope : List String
  count : Nat
  total : Nat
  avg : ℚ
  rating : Rating
deriving DecidableEq, Repr

/-- The `process_gdp` pipeline: advisory pages' text → scope; arrivals pages →
matched rows; then count, total, mean, rounding and severity. -/
def process_gdp (advisoryPages : List String) (arrivalPages : List Page) : AnalysisResult :=
  let scope := extract_dep_scope advisoryPages
  let rows := docRows scope arrivalPages
  let avg := meanDelay rows
  { scope := scope
    count := rows.length
    total := totalDelay rows
    avg := pyRound1 avg
    rating := severity avg }

/-- Is a token "integer-looking" (non-empty, all decimal digits)? -/
def intLooking (t : List Char) : Bool := !t.isEmpty && t.all Char.isDigit

/-- The lines of a text (split at newlines). -/
def linesOf (s : String) : List String :=
  (runs (fun c => c ≠ '\n') s.data).map (fun l => ⟨l⟩)

/-- Modelled from the spec: the degraded raw-OCR-line fallback that §4.5 of
the design describes for pages with no structured grid — every line with at
least four whitespace-separated tokens is a row candidate, matched if any
scope code is a substring of the uppercased line, with delay the last
integer-looking token. `src/app.py` contains no such code path; this
definition follows the spec's words, for comparison with `pageRows`. -/
def specOcrFallbackRows (scopeSet : List String) (text : String) : List (String × Nat) :=
  (linesOf text).filterMap (fun line =>
    let toks := runs (fun c => !c.isWhitespace) line.data
    if 4 ≤ toks.length ∧ scopeSet.any (fun s => containsSub s.data (upperStr line).data) then
      some (line, (((toks.filter intLooking).getLast?).map digitsToNat).getD 0)
    else none)

/-- Full-string match of the scope pattern `[CZ][A-Z0-9]{2,3}`. -/
def matchesScopePattern (s : String) : Bool := scopeTokenMatches s.data

/-- The advisory text of the end-to-end scenario. -/
def sampleAdvisoryText : String := "...ZNY Z... CZEG..."

/-- The arrivals table of the end-to-end scenario. -/
def sampleTable : TableGrid :=
  [[some "ACID", some "DCENTR", some "PgmDelay"],
   [some "ACA123", some "KZNY", some "45 MIN"],
   [some "DAL77", some "KBOS", some "5 MIN"]]

/-- The arrivals page of the end-to-end scenario. -/
def samplePage : Page := { table := some sampleTable, rawText := "" }

/-- The header row of the column-resolver scenario. -/
def fallbackHeader : Row := [some "Callsign", some "Origin", some "Min Delay"]

/-- A raw OCR line that the spec's degraded fallback would match (four
whitespace-separated tokens, contains `ZNY`, last integer token `45`). -/
def ocrLine : String := "AAL1 KZNY 45 MIN"

theorem rowMatch_nil (acid dcentr delayStr : Cell) :
    rowMatch [] acid dcentr delayStr = [] := by
  cases dcentr with
  | none => rfl
  | some dc => simp [rowMatch]

theorem processRow_nil (idxA idxD : Nat) (idxDelay : Option Nat) (row : Row) :
    processRow [] idxA idxD idxDelay row = [] := by
  unfold processRow
  split
  · rfl
  · exact rowMatch_nil _ _ _

theorem flattenRows_nil (a d : Nat) (idxDelay : Option Nat) (rows : List Row) :
    (rows.map (processRow [] a d idxDelay)).flatten = [] := by
  induction rows with
  | nil => rfl
  | cons r rs ih => simp [processRow_nil, ih]

theorem pageRows_nil (p : Page) : pageRows [] p = [] := by
  rcases p with ⟨t, raw⟩
  rcases t with _ | (_ | ⟨headers, rows⟩)
  · rfl
  · rfl
  · cases hA : find_column_index headers acidKeywords <;>
      cases hD : find_column_index headers dcentrKeywords <;>
        simp [pageRows, hA, hD, flattenRows_nil]

theorem docRows_nil (pages : List Page) : docRows [] pages = [] := by
  simp only [docRows, List.flatten_eq_nil_iff, List.mem_map]
  rintro x ⟨p, hp, rfl⟩
  exact pageRows_nil p

theorem pyRound1_zero : pyRound1 0 = 0 := by norm_num [pyRound1]

/-- C2: the severity classifier is a pure total function of the mean delay
with bands `<11 → NIL`, `<15 → LOW`, `<45 → MODERATE`, `≥45 → HIGH`,
inclusive on each band's lower bound; means 10, 11, 14, 15, 44, 45, 100 yield
NIL, LOW, LOW, MODERATE, MODERATE, HIGH, HIGH. -/
theorem C2_severity_bands :
    (∀ m : ℚ,
      (severity m = .NIL ↔ m < 11) ∧
      (severity m = .LOW ↔ 11 ≤ m ∧ m < 15) ∧
      (severity m = .MODERATE ↔ 15 ≤ m ∧ m < 45) ∧
      (severity m = .HIGH ↔ 45 ≤ m)) ∧
    severity 10 = .NIL ∧ severity 11 = .LOW ∧ severity 14 = .LOW ∧
    severity 15 = .MODERATE ∧ severity 44 = .MODERATE ∧
    severity 45 = .HIGH ∧ severity 100 = .HIGH := by
  constructor
  · intro m
    unfold severity
    refine ⟨?_, ?_, ?_, ?_⟩ <;> split_ifs <;> simp_all [not_lt] <;> intros <;> linarith
  · exact ⟨by decide, by decide, by decide, by decide, by decide, by decide, by decide⟩

/-- C7: delay parsing strips all non-digit characters and parses the
remainder, defaulting to 0 (the truthiness guard on the raw cell is
semantically redundant); `"45 MIN"`, `"45"`, `""`, `None`, `"abc"` parse to
45, 45, 0, 0, 0. -/
theorem C7_delay_parsing :
    (∀ s : String, parseDelay (some s) =
      (if s.data.filter Char.isDigit = [] then 0
       else digitsToNat (s.data.filter Char.isDigit))) ∧
    parseDelay (some "45 MIN") = 45 ∧ parseDelay (some "45") = 45 ∧
    parseDelay (some "") = 0 ∧ parseDelay none = 0 ∧ parseDelay (some "abc") = 0 := by
  refine ⟨?_, by decide, by decide, rfl, rfl, by decide⟩
  intro s
  by_cases h : s = ""
  · subst h; rfl
  · simp only [parseDelay]
    rw [if_neg h]

/-- C3 (counterexample): the code has no raw-OCR-line fallback.  On a page
whose structured extraction fails but whose raw text is a four-token line
containing a scope code with trailing integer token 45, the claimed fallback
(`specOcrFallbackRows`, written from the spec) produces one matched row with
delay 45, while the pipeline (`docRows`) produces none. -/
theorem C3_counterexample :
    docRows ["ZNY"] [{ table := none, rawText := ocrLine }] = [] ∧
    specOcrFallbackRows ["ZNY"] ocrLine = [(ocrLine, 45)] ∧
    (docRows ["ZNY"] [{ table := none, rawText := ocrLine }]).length ≠
      (specOcrFallbackRows ["ZNY"] ocrLine).length := by decide

/-- C3 (amended): when no structured table grid can be extracted from an
arrivals page, the page is skipped outright — it contributes no rows, whatever
its raw OCR text contains; no line-based fallback is applied. -/
theorem C3_no_ocr_fallback (scopeSet : List String) (txt : String) :
    pageRows scopeSet { table := none, rawText := txt } = [] := rfl

/-- C4: a page whose structured table extraction fails contributes nothing,
is recorded in the skip log, and the remaining pages are processed exactly as
if the failed page were absent — the run is never aborted. -/
theorem C4_page_failure_contained (scopeSet : List String) (xs ys : List Page) (txt : String) :
    docRows scopeSet (xs ++ { table := none, rawText := txt } :: ys) =
      docRows scopeSet (xs ++ ys) ∧
    xs.length ∈ skippedPages (xs ++ { table := none, rawText := txt } :: ys) := by
  constructor
  · simp [docRows, pageRows]
  · simp only [skippedPages, List.mem_filter, List.mem_range]
    refine ⟨by simp, ?_⟩
    rw [List.getElem?_append_right (le_refl _)]
    simp [pageSkipped]

/-- C6: when the extracted DepScope is empty, no row matches on any arrivals
document — the matched-row count is 0 and the mean delay is 0. -/
theorem C6_empty_scope (advisoryPages : List String) (arrivalPages : List Page)
    (h : extract_dep_scope advisoryPages = []) :
    docRows (extract_dep_scope advisoryPages) arrivalPages = [] ∧
    (process_gdp advisoryPages arrivalPages).count = 0 ∧
    (process_gdp advisoryPages arrivalPages).avg = 0 := by
  refine ⟨?_, ?_, ?_⟩
  · rw [h]; exact docRows_nil _
  · simp [process_gdp, h, docRows_nil]
  · simp [process_gdp, h, docRows_nil, meanDelay, pyRound1_zero]

/-- C6 witness: a concrete advisory with no scope codes. -/
theorem C6_empty_scope_witness :
    docRows (extract_dep_scope ["no codes here"]) [] = [] ∧
    (process_gdp ["no codes here"] []).count = 0 ∧
    (process_gdp ["no codes here"] []).avg = 0 :=
  C6_empty_scope ["no codes here"] [] (by decide)

/-- C9: a data row whose departure-center cell is `None` or the empty string
is never matched and never emits an `ImpactedRow`, whatever the scope. -/
theorem C9_blank_dcentr_never_matches (scopeSet : List String) (idxA idxD : Nat)
    (idxDelay : Option Nat) (row : Row)
    (h : row.getD idxD none = none ∨ row.getD idxD none = some "") :
    processRow scopeSet idxA idxD idxDelay row = [] := by
  unfold processRow
  split
  · rfl
  · rcases h with h | h <;> simp [List.getD] at h <;> simp [h, rowMatch]

/-- C9 witness: a concrete row with an empty departure-center cell, inside
the bounds guard, against a non-empty scope. -/
theorem C9_blank_dcentr_never_matches_witness :
    processRow ["ZNY"] 0 1 (some 2) [some "ACA123", some "", some "45"] = [] :=
  C9_blank_dcentr_never_matches ["ZNY"] 0 1 (some 2)
    [some "ACA123", some "", some "45"] (Or.inr rfl)

theorem get?_eq_some_getD {α : Type} (l : List α) (i : Nat) (d : α) (h : i < l.length) :
    l.get? i = some (l.getD i d) := by
  induction l generalizing i with
  | nil => simp at h
  | cons x xs ih =>
    cases i with
    | zero => rfl
    | succ n => simpa using ih n (by simpa using h)

/-- C10: every cell access of the matching engine is in bounds — the checked
variant `processRowE`, in which an out-of-range read raises `IndexError` as in
Python, never errors and agrees with `processRow`, because rows are processed
only when longer than every resolved column index. -/
theorem C10_cell_access_in_bounds (scopeSet : List String) (idxA idxD : Nat)
    (idxDelay : Option Nat) (row : Row) :
    processRowE scopeSet idxA idxD idxDelay row =
      .ok (processRow scopeSet idxA idxD idxDelay row) := by
  unfold processRow processRowE
  by_cases hg : row = [] ∨ row.length ≤ max idxA (max idxD (idxDelay.getD 0))
  · rw [if_pos hg, if_pos hg]
  · rw [if_neg hg, if_neg hg]
    push_neg at hg
    obtain ⟨-, hlen⟩ := hg
    have hA : idxA < row.length := lt_of_le_of_lt (le_max_left _ _) hlen
    have hD : idxD < row.length :=
      lt_of_le_of_lt (le_trans (le_max_left _ _) (le_max_right _ _)) hlen
    rw [get?_eq_some_getD row idxA none hA, get?_eq_some_getD row idxD none hD]
    cases idxDelay with
    | none => rfl
    | some dIdx =>
      have hDel : dIdx < row.length :=
        lt_of_le_of_lt (le_trans (le_max_right _ _) (le_max_right _ _)) hlen
      obtain ⟨v, hv⟩ : ∃ v, row[dIdx]? = some v :=
        ⟨_, by simpa [List.get?_eq_getElem?] using get?_eq_some_getD row dIdx none hDel⟩
      simp [hv]

theorem strLe_trans : ∀ a b c : List Char,
    strLe a b = true → strLe b c = true → strLe a c = true := by
  intro a
  induction a with
  | nil => intro b c _ _; rfl
  | cons x xs ih =>
    intro b c hab hbc
    cases b with
    | nil => simp [strLe] at hab
    | cons y ys =>
      cases c with
      | nil => simp [strLe] at hbc
      | cons z zs =>
        simp only [strLe, Bool.or_eq_true, Bool.and_eq_true, decide_eq_true_eq] at hab hbc ⊢
        rcases hab with hab | ⟨hab, hab2⟩ <;> rcases hbc with hbc | ⟨hbc, hbc2⟩
        · exact Or.inl (by omega)
        · exact Or.inl (by omega)
        · exact Or.inl (by omega)
        · exact Or.inr ⟨by omega, ih ys zs hab2 hbc2⟩

theorem strLe_total : ∀ a b : List Char, strLe a b = true ∨ strLe b a = true := by
  intro a
  induction a with
  | nil => intro b; exact Or.inl rfl
  | cons x xs ih =>
    intro b
    cases b with
    | nil => exact Or.inr rfl
    | cons y ys =>
      simp only [strLe, Bool.or_eq_true, Bool.and_eq_true, decide_eq_true_eq]
      rcases Nat.lt_trichotomy x.toNat y.toNat with h | h | h
      · exact Or.inl (Or.inl h)
      · rcases ih ys with h2 | h2
        · exact Or.inl (Or.inr ⟨h, h2⟩)
        · exact Or.inr (Or.inr ⟨h.symm, h2⟩)
      · exact Or.inr (Or.inl h)

instance : IsTrans String codeLe :=
  ⟨fun a b c hab hbc => strLe_trans a.data b.data c.data hab hbc⟩

instance : IsTotal String codeLe :=
  ⟨fun a b => strLe_total a.data b.data⟩

theorem toUpper_eq_self_of_codeChar (c : Char) (h : codeChar c = true) :
    c.toUpper = c := by
  simp only [codeChar, Bool.or_eq_true, Bool.and_eq_true, decide_eq_true_eq] at h
  simp only [Char.toUpper]
  rw [if_neg (by omega)]

theorem toUpper_eq_self_of_CZ (c : Char) (h : c = 'C' ∨ c = 'Z') : c.toUpper = c := by
  rcases h with rfl | rfl <;> decide

theorem upperStr_eq_self_of_scopeTok (m : List Char) (h : scopeTokenMatches m = true) :
    upperStr ⟨m⟩ = ⟨m⟩ := by
  have hdata : m.map Char.toUpper = m := by
    cases m with
    | nil => rfl
    | cons c rest =>
      simp only [scopeTokenMatches, Bool.and_eq_true, Bool.or_eq_true,
        decide_eq_true_eq, List.all_eq_true] at h
      obtain ⟨⟨hc, _⟩, hall⟩ := h
      simp only [List.map]
      rw [toUpper_eq_self_of_CZ c hc]
      congr 1
      calc rest.map Char.toUpper
          = rest.map id := List.map_congr_left
            (fun x hx => toUpper_eq_self_of_codeChar x (hall x hx))
        _ = rest := List.map_id rest
  show String.mk (m.map Char.toUpper) = String.mk m
  rw [hdata]

theorem mem_extract_dep_scope {pages : List String} {c : String}
    (hc : c ∈ extract_dep_scope pages) :
    ∃ m, scopeTokenMatches m = true ∧ c = upperStr ⟨m⟩ ∧ c ∉ denylist := by
  unfold extract_dep_scope at hc
  have hc2 : c ∈ (pages.map pageScopeCodes).flatten.dedup :=
    ((List.perm_insertionSort codeLe _).mem_iff).mp hc
  rw [List.mem_dedup, List.mem_flatten] at hc2
  obtain ⟨l, hl, hcl⟩ := hc2
  rw [List.mem_map] at hl
  obtain ⟨text, htext, rfl⟩ := hl
  unfold pageScopeCodes at hcl
  rw [List.mem_filterMap] at hcl
  obtain ⟨m, hm, hme⟩ := hcl
  rw [List.mem_filter] at hm
  split_ifs at hme with hcond
  obtain ⟨hlen, hden⟩ := hcond
  rw [Option.some.injEq] at hme
  exact ⟨m, hm.2, hme.symm, hme ▸ hden⟩

/-- C5: every code `extract_dep_scope` emits, on any advisory, matches the
full pattern `[CZ][A-Z0-9]{2,3}`, is uppercase (`upper` fixes it), avoids the
denylist `CENT`/`CYZ`/`CZ`, and the emitted DepScope is sorted (Python string
order) with no duplicates. -/
theorem C5_scope_invariants (pages : List String) :
    (∀ c ∈ extract_dep_scope pages,
        matchesScopePattern c = true ∧ upperStr c = c ∧ c ∉ denylist) ∧
    List.Sorted codeLe (extract_dep_scope pages) ∧
    (extract_dep_scope pages).Nodup := by
  refine ⟨?_, ?_, ?_⟩
  · intro c hc
    obtain ⟨m, hmt, hce, hden⟩ := mem_extract_dep_scope hc
    have he : upperStr ⟨m⟩ = ⟨m⟩ := upperStr_eq_self_of_scopeTok m hmt
    refine ⟨?_, ?_, hden⟩
    · rw [hce, he]; exact hmt
    · rw [hce, he]; exact he
  · exact List.sorted_insertionSort codeLe _
  · exact ((List.perm_insertionSort codeLe _).nodup_iff).mpr (List.nodup_dedup _)

/-- C5 witness: the per-code invariant instantiated on a concrete advisory and
the concrete emitted code `"ZNY"`. -/
theorem C5_scope_invariants_witness :
    matchesScopePattern "ZNY" = true ∧ upperStr "ZNY" = "ZNY" ∧ "ZNY" ∉ denylist :=
  (C5_scope_invariants ["...ZNY Z... CZEG..."]).1 "ZNY" (by decide)

theorem findColAux_none_iff (keywords : List String) :
    ∀ (headers : List Cell) (base : Nat),
      findColAux keywords headers base = none ↔
        ∀ j, j < headers.length → headerMatch keywords (headers.getD j none) = false := by
  intro headers
  induction headers with
  | nil => intro base; simp [findColAux]
  | cons h rest ih =>
    intro base
    by_cases hm : headerMatch keywords h = true
    · simp only [findColAux]
      rw [if_pos hm]
      constructor
      · intro h0
        cases h0
      · intro hall
        have h0 := hall 0 (Nat.succ_pos _)
        rw [List.getD_cons_zero, hm] at h0
        simp at h0
    · have hmf : headerMatch keywords h = false := by simpa using hm
      simp only [findColAux]
      rw [if_neg hm]
      rw [ih (base + 1)]
      constructor
      · intro hsm j hj
        cases j with
        | zero => simp [hmf]
        | succ j =>
          have := hsm j (by simpa using hj)
          simpa using this
      · intro hall j hj
        have := hall (j + 1) (by simpa using hj)
        simpa using this

theorem findColAux_some_iff (keywords : List String) :
    ∀ (headers : List Cell) (base i : Nat),
      findColAux keywords headers base = some i ↔
        ∃ k, i = base + k ∧ k < headers.length ∧
          headerMatch keywords (headers.getD k none) = true ∧
          ∀ j, j < k → headerMatch keywords (headers.getD j none) = false := by
  intro headers
  induction headers with
  | nil => intro base i; simp [findColAux]
  | cons h rest ih =>
    intro base i
    by_cases hm : headerMatch keywords h = true
    · simp only [findColAux]
      rw [if_pos hm]
      rw [Option.some.injEq]
      constructor
      · rintro rfl
        exact ⟨0, by omega, Nat.succ_pos _, by simpa using hm,
          fun j hj => absurd hj (Nat.not_lt_zero j)⟩
      · rintro ⟨k, hik, hk, hmk, hprev⟩
        cases k with
        | zero => omega
        | succ k =>
          have h0 := hprev 0 (Nat.succ_pos _)
          rw [List.getD_cons_zero, hm] at h0
          simp at h0
    · have hmf : headerMatch keywords h = false := by simpa using hm
      simp only [findColAux]
      rw [if_neg hm]
      rw [ih (base + 1) i]
      constructor
      · rintro ⟨k, hik, hk, hmk, hprev⟩
        refine ⟨k + 1, by omega, by simpa using Nat.succ_lt_succ hk, by simpa using hmk, ?_⟩
        intro j hj
        cases j with
        | zero => simp [hmf]
        | succ j =>
          have := hprev j (by omega)
          simpa using this
      · rintro ⟨k, hik, hk, hmk, hprev⟩
        cases k with
        | zero =>
          rw [List.getD_cons_zero, hmf] at hmk
          cases hmk
        | succ k =>
          refine ⟨k, by omega, by simpa using hk, by simpa using hmk, ?_⟩
          intro j hj
          have := hprev (j + 1) (by simpa using hj)
          simpa using this

/-- C8: the column resolver returns the index of the first header cell whose
space-stripped uppercase form contains a candidate keyword, and `None` when no
cell matches; the header `["Callsign", "Origin", "Min Delay"]` resolves the
identifier, departure-center and delay roles to columns 0, 1, 2 without exact
header names. -/
theorem C8_column_resolver :
    (∀ (headers : List Cell) (keywords : List String) (i : Nat),
      find_column_index headers keywords = some i ↔
        i < headers.length ∧ headerMatch keywords (headers.getD i none) = true ∧
        ∀ j, j < i → headerMatch keywords (headers.getD j none) = false) ∧
    (∀ (headers : List Cell) (keywords : List String),
      find_column_index headers keywords = none ↔
        ∀ j, j < headers.length → headerMatch keywords (headers.getD j none) = false) ∧
    find_column_index fallbackHeader acidKeywords = some 0 ∧
    find_column_index fallbackHeader dcentrKeywords = some 1 ∧
    find_column_index fallbackHeader delayKeywords = some 2 := by
  refine ⟨?_, ?_, by decide, by decide, by decide⟩
  · intro headers keywords i
    rw [find_column_index, findColAux_some_iff]
    constructor
    · rintro ⟨k, hik, hk, hmk, hprev⟩
      obtain rfl : k = i := by omega
      exact ⟨hk, hmk, hprev⟩
    · rintro ⟨hi, hmi, hprev⟩
      exact ⟨i, by omega, hi, hmi, hprev⟩
  · intro headers keywords
    rw [find_column_index, findColAux_none_iff]

/-- C1: the end-to-end scenario — advisory text `"...ZNY Z... CZEG..."` and
the arrivals table with header `["ACID", "DCENTR", "PgmDelay"]` and rows
`[["ACA123", "KZNY", "45 MIN"], ["DAL77", "KBOS", "5 MIN"]]` yield DepScope
`["CZEG", "ZNY"]`, exactly one `ImpactedRow` (`ACA123`, delay 45) via the
substring match of `"ZNY"` inside the uppercased `"KZNY"`, total 45,
mean 45.0 and rating HIGH. -/
theorem C1_end_to_end :
    extract_dep_scope [sampleAdvisoryText] = ["CZEG", "ZNY"] ∧
    docRows ["CZEG", "ZNY"] [samplePage] =
      [{ acid := some "ACA123", dcentr := some "KZNY", delay := 45 }] ∧
    (process_gdp [sampleAdvisoryText] [samplePage]).count = 1 ∧
    (process_gdp [sampleAdvisoryText] [samplePage]).total = 45 ∧
    (process_gdp [sampleAdvisoryText] [samplePage]).avg = 45 ∧
    (process_gdp [sampleAdvisoryText] [samplePage]).rating = .HIGH := by
  have hscope : extract_dep_scope [sampleAdvisoryText] = ["CZEG", "ZNY"] := by decide
  have hrows : docRows ["CZEG", "ZNY"] [samplePage] =
      [{ acid := some "ACA123", dcentr := some "KZNY", delay := 45 }] := by decide
  have hmean : meanDelay [{ acid := some "ACA123", dcentr := some "KZNY", delay := 45 }]
      = 45 := by norm_num [meanDelay, totalDelay]
  refine ⟨hscope, hrows, ?_, ?_, ?_, ?_⟩
  · simp [process_gdp, hscope, hrows]
  · simp [process_gdp, hscope, hrows, totalDelay]
  · simp only [process_gdp, hscope, hrows, hmean]
    norm_num [pyRound1]
  · simp only [process_gdp, hscope, hrows, hmean]
    decide

end GDP
